import Mathlib

/-!
Verification of the drawing-store backend (`backend/main.py`).

The service stores drawing records in a SQLite table and exposes CRUD
operations.  The `canvas_state` column is stored as a serialized JSON text
blob (`json.dumps` on write, `json.loads` on read), so we embed a JSON
value type together with an executable serializer and parser and prove the
storage round-trip lossless.  Numbers are modelled as integers: floating
point values admit no faithful shallow embedding, and nothing in the
service inspects numeric payloads.  Timestamps (`datetime.now().isoformat()`
strings, compared textually by SQLite's `ORDER BY`) are modelled as natural
numbers ordered by `≤`, matching the chronological order of the ISO strings.
-/

/- JSON documents, as handled by Python's `json` module for the
`canvas_state` payload.  `JsonList` / `JsonObj` are the array element and
object member spines (a mutual inductive rather than nested `List`, so all
functions below are structural and kernel-computable). -/
mutual
inductive JsonValue : Type where
  | null : JsonValue
  | bool : Bool → JsonValue
  | num : Int → JsonValue
  | str : String → JsonValue
  | arr : JsonList → JsonValue
  | obj : JsonObj → JsonValue

inductive JsonList : Type where
  | nil : JsonList
  | cons : JsonValue → JsonList → JsonList

inductive JsonObj : Type where
  | nil : JsonObj
  | cons : String → JsonValue → JsonObj → JsonObj
end

/-- The decimal digit characters, as emitted when serializing numbers. -/
def digitChar : Nat → Char
  | 0 => '0'
  | 1 => '1'
  | 2 => '2'
  | 3 => '3'
  | 4 => '4'
  | 5 => '5'
  | 6 => '6'
  | 7 => '7'
  | 8 => '8'
  | _ => '9'

/-- Numeric value of a decimal digit character. -/
def charVal (c : Char) : Nat := c.toNat - 48

/-- Decimal digits of `n`, most significant first; `fuel` bounds the
recursion (any `fuel > n` is enough). -/
def natCharsAux : Nat → Nat → List Char
  | 0, _ => []
  | fuel + 1, n =>
    if n < 10 then [digitChar n]
    else natCharsAux fuel (n / 10) ++ [digitChar (n % 10)]

/-- Decimal representation of a natural number, as `json.dumps` prints it. -/
def natChars (n : Nat) : List Char := natCharsAux (n + 1) n

/-- Decimal representation of an integer, as `json.dumps` prints it. -/
def intChars : Int → List Char
  | Int.ofNat n => natChars n
  | Int.negSucc n => '-' :: natChars (n + 1)

/-- Escaping of one character inside a JSON string literal: quote and
backslash get a backslash escape, everything else is emitted verbatim. -/
def escapeChar (c : Char) : List Char :=
  if c = '"' ∨ c = '\\' then ['\\', c] else [c]

/-- Escaping of a character sequence inside a JSON string literal. -/
def escapeChars : List Char → List Char
  | [] => []
  | c :: cs => escapeChar c ++ escapeChars cs

/-- A JSON string literal: quote, escaped body, quote. -/
def strLit (s : String) : List Char := '"' :: escapeChars s.data ++ ['"']

/- Serialization of JSON values as Python's `json.dumps` renders them
(default separators: elements joined by comma-space, keys and values
joined by colon-space). -/
mutual
def serializeVal : JsonValue → List Char
  | JsonValue.null => ['n', 'u', 'l', 'l']
  | JsonValue.bool true => ['t', 'r', 'u', 'e']
  | JsonValue.bool false => ['f', 'a', 'l', 's', 'e']
  | JsonValue.num i => intChars i
  | JsonValue.str s => strLit s
  | JsonValue.arr xs => '[' :: serializeElems xs
  | JsonValue.obj kvs => '{' :: serializeMembers kvs

def serializeElems : JsonList → List Char
  | JsonList.nil => [']']
  | JsonList.cons x tl => serializeVal x ++ serializeElemsTail tl

def serializeElemsTail : JsonList → List Char
  | JsonList.nil => [']']
  | JsonList.cons y tl => ',' :: ' ' :: (serializeVal y ++ serializeElemsTail tl)

def serializeMembers : JsonObj → List Char
  | JsonObj.nil => ['}']
  | JsonObj.cons k v tl => strLit k ++ ':' :: ' ' :: (serializeVal v ++ serializeMembersTail tl)

def serializeMembersTail : JsonObj → List Char
  | JsonObj.nil => ['}']
  | JsonObj.cons k v tl =>
    ',' :: ' ' :: (strLit k ++ ':' :: ' ' :: (serializeVal v ++ serializeMembersTail tl))
end

/-- Longest digit run at the front of the input, and the rest. -/
def takeDigits : List Char → List Char × List Char
  | [] => ([], [])
  | c :: cs =>
    if c.isDigit then
      let p := takeDigits cs
      (c :: p.1, p.2)
    else ([], c :: cs)

/-- Numeric value of a digit run, most significant digit first. -/
def digitsToNat (l : List Char) : Nat :=
  l.foldl (fun a c => a * 10 + charVal c) 0

/-- Parse a JSON number (an optional minus sign followed by digits). -/
def parseNum : List Char → Option (JsonValue × List Char)
  | [] => none
  | c :: rest =>
    if c = '-' then
      let p := takeDigits rest
      if p.1 = [] then none
      else some (JsonValue.num (-(Int.ofNat (digitsToNat p.1))), p.2)
    else
      let p := takeDigits (c :: rest)
      if p.1 = [] then none
      else some (JsonValue.num (Int.ofNat (digitsToNat p.1)), p.2)

/-- Parse the body of a JSON string literal after the opening quote,
up to and through the closing quote. -/
def parseStrChars : List Char → Option (List Char × List Char)
  | [] => none
  | c :: rest =>
    if c = '"' then some ([], rest)
    else if c = '\\' then
      match rest with
      | [] => none
      | e :: rest2 =>
        match parseStrChars rest2 with
        | none => none
        | some p => some (e :: p.1, p.2)
    else
      match parseStrChars rest with
      | none => none
      | some p => some (c :: p.1, p.2)

/-- Drop an expected literal sequence from the input. -/
def dropPre : List Char → List Char → Option (List Char)
  | [], cs => some cs
  | _ :: _, [] => none
  | p :: ps, c :: cs => if c = p then dropPre ps cs else none

/- Parser for serialized JSON values, inverse to `serializeVal`;
`fuel` bounds the bracket recursion. -/
mutual
def parseValue : Nat → List Char → Option (JsonValue × List Char)
  | 0, _ => none
  | _ + 1, [] => none
  | fuel + 1, c :: rest =>
    if c.isDigit then parseNum (c :: rest)
    else if c = '-' then parseNum (c :: rest)
    else if c = 'n' then
      match dropPre ['u', 'l', 'l'] rest with
      | some rest2 => some (JsonValue.null, rest2)
      | none => none
    else if c = 't' then
      match dropPre ['r', 'u', 'e'] rest with
      | some rest2 => some (JsonValue.bool true, rest2)
      | none => none
    else if c = 'f' then
      match dropPre ['a', 'l', 's', 'e'] rest with
      | some rest2 => some (JsonValue.bool false, rest2)
      | none => none
    else if c = '"' then
      match parseStrChars rest with
      | some p => some (JsonValue.str (String.mk p.1), p.2)
      | none => none
    else if c = '[' then
      if rest.head? = some ']' then some (JsonValue.arr JsonList.nil, rest.tail)
      else
        match parseElems fuel rest with
        | some p => some (JsonValue.arr p.1, p.2)
        | none => none
    else if c = '{' then
      if rest.head? = some '}' then some (JsonValue.obj JsonObj.nil, rest.tail)
      else
        match parseMembers fuel rest with
        | some p => some (JsonValue.obj p.1, p.2)
        | none => none
    else none

def parseElems : Nat → List Char → Option (JsonList × List Char)
  | 0, _ => none
  | fuel + 1, cs =>
    match parseValue fuel cs with
    | none => none
    | some (v, rest) =>
      match rest with
      | ']' :: rest2 => some (JsonList.cons v JsonList.nil, rest2)
      | ',' :: ' ' :: rest2 =>
        match parseElems fuel rest2 with
        | none => none
        | some p => some (JsonList.cons v p.1, p.2)
      | _ => none

def parseMembers : Nat → List Char → Option (JsonObj × List Char)
  | 0, _ => none
  | fuel + 1, cs =>
    match cs with
    | '"' :: cs1 =>
      match parseStrChars cs1 with
      | none => none
      | some (k, rest1) =>
        match rest1 with
        | ':' :: ' ' :: rest2 =>
          match parseValue fuel rest2 with
          | none => none
          | some (v, rest3) =>
            match rest3 with
            | '}' :: rest4 => some (JsonObj.cons (String.mk k) v JsonObj.nil, rest4)
            | ',' :: ' ' :: rest4 =>
              match parseMembers fuel rest4 with
              | none => none
              | some p => some (JsonObj.cons (String.mk k) v p.1, p.2)
            | _ => none
        | _ => none
    | _ => none
end

/-- Python `json.dumps`: the serialized text of a JSON document. -/
def json_dumps (j : JsonValue) : String := String.mk (serializeVal j)

/-- Python `json.loads`: parse a complete JSON document; `none` models the
`json.JSONDecodeError` exception (trailing input is an error too). -/
def json_loads (s : String) : Option JsonValue :=
  match parseValue (s.data.length + 1) s.data with
  | some (j, []) => some j
  | _ => none

example : json_dumps (JsonValue.arr (JsonList.cons (JsonValue.num 12)
    (JsonList.cons JsonValue.null JsonList.nil))) = "[12, null]" := rfl

example :
    json_loads (json_dumps (JsonValue.obj (JsonObj.cons "a" (JsonValue.num (-3))
      (JsonObj.cons "b" (JsonValue.str "x\"y") JsonObj.nil)))) =
    some (JsonValue.obj (JsonObj.cons "a" (JsonValue.num (-3))
      (JsonObj.cons "b" (JsonValue.str "x\"y") JsonObj.nil))) := rfl

/-- The input does not begin with a decimal digit, so a greedy digit run
stops exactly at its front. -/
def NonDigitStart : List Char → Prop
  | [] => True
  | c :: _ => c.isDigit = false

/- Fuel sufficient for `parseValue` to parse a serialized value: one unit
per bracket-nesting step of the parser call graph. -/
mutual
def fuelVal : JsonValue → Nat
  | JsonValue.null => 1
  | JsonValue.bool _ => 1
  | JsonValue.num _ => 1
  | JsonValue.str _ => 1
  | JsonValue.arr xs => fuelList xs + 1
  | JsonValue.obj kvs => fuelObj kvs + 1

def fuelList : JsonList → Nat
  | JsonList.nil => 1
  | JsonList.cons x tl => max (fuelVal x) (fuelList tl) + 1

def fuelObj : JsonObj → Nat
  | JsonObj.nil => 1
  | JsonObj.cons _ v tl => max (fuelVal v) (fuelObj tl) + 1
end

/-- Wire-level error taxonomy of the service: the `HTTPException`s raised
by the handlers. -/
inductive Err : Type where
  | notFound : Err
  | invalidRequest : Err
  | internalError : Err
deriving DecidableEq

/-- HTTP status code of each error. -/
def Err.httpStatus : Err → Nat
  | Err.notFound => 404
  | Err.invalidRequest => 400
  | Err.internalError => 500

/-- A row of the `drawings` table.  `canvas_state` holds the serialized
text blob (a TEXT column); timestamps are modelled as naturals (see the
file header). -/
structure Row where
  id : String
  name : String
  preview_image : String
  canvas_state : String
  created_at : Nat
  updated_at : Nat

/-- The `drawings` table, rows in insertion order (`id` is the PRIMARY KEY,
so well-formed tables have pairwise distinct ids). -/
abbrev DB := List Row

/-- Request body of POST /drawings (pydantic model `DrawingCreate`). -/
structure DrawingCreate where
  name : String
  preview_image : String
  canvas_state : JsonValue

/-- Request body of PUT /drawings (pydantic model `DrawingUpdate`): every
field is optional with default `None`; pydantic decodes both an omitted
field and an explicit JSON `null` to Python `None`, i.e. to `none` here. -/
structure DrawingUpdate where
  name : Option String
  preview_image : Option String
  canvas_state : Option JsonValue

/-- Response body (`DrawingResponse`): `canvas_state` is returned as a
parsed document. -/
structure DrawingResponse where
  id : String
  name : String
  preview_image : String
  canvas_state : JsonValue
  created_at : Nat
  updated_at : Nat

/-- Build the response for one row: parse the stored `canvas_state` and
copy the remaining columns; `none` models the `json.loads` exception on an
unparseable column. -/
def rowResponse (r : Row) : Option DrawingResponse :=
  (json_loads r.canvas_state).map fun cs =>
    { id := r.id, name := r.name, preview_image := r.preview_image,
      canvas_state := cs, created_at := r.created_at, updated_at := r.updated_at }

/-- `create_drawing` (POST /drawings).  `drawing_id` stands for the fresh
`str(uuid.uuid4())` and `now` for the captured current time.  A duplicate
primary key makes the INSERT raise, caught by the handler as a 500 with
nothing committed; otherwise the row — `canvas_state` serialized with
`json.dumps` — is committed and the response echoes the input. -/
def create_drawing (db : DB) (drawing : DrawingCreate) (drawing_id : String) (now : Nat) :
    DB × Except Err DrawingResponse :=
  if (db.find? fun r => r.id == drawing_id).isSome then
    (db, Except.error Err.internalError)
  else
    (db ++ [{ id := drawing_id, name := drawing.name, preview_image := drawing.preview_image,
              canvas_state := json_dumps drawing.canvas_state,
              created_at := now, updated_at := now }],
     Except.ok { id := drawing_id, name := drawing.name,
                 preview_image := drawing.preview_image,
                 canvas_state := drawing.canvas_state,
                 created_at := now, updated_at := now })

/-- Insertion step of the model of `ORDER BY updated_at DESC`. -/
def insertByUpdated (r : Row) : List Row → List Row
  | [] => [r]
  | s :: rest =>
    if s.updated_at ≤ r.updated_at then r :: s :: rest
    else s :: insertByUpdated r rest

/-- The rows sorted by `updated_at` descending. -/
def sortByUpdated (db : DB) : List Row := db.foldr insertByUpdated []

/-- The response-building loop of `get_drawings`: any row whose stored
`canvas_state` fails to parse aborts the whole request. -/
def allResponses : List Row → Option (List DrawingResponse)
  | [] => some []
  | r :: rs =>
    match rowResponse r, allResponses rs with
    | some x, some xs => some (x :: xs)
    | _, _ => none

/-- `get_drawings` (GET /drawings). -/
def get_drawings (db : DB) : Except Err (List DrawingResponse) :=
  match allResponses (sortByUpdated db) with
  | some l => Except.ok l
  | none => Except.error Err.internalError

/-- `get_drawing` (GET /drawings/id). -/
def get_drawing (db : DB) (drawing_id : String) : Except Err DrawingResponse :=
  match db.find? fun r => r.id == drawing_id with
  | none => Except.error Err.notFound
  | some row =>
    match rowResponse row with
    | none => Except.error Err.internalError
    | some resp => Except.ok resp

/-- The dynamically-built SET clause of `update_drawing`, applied to one
row: each present field overwrites the stored column (`canvas_state`
re-serialized with `json.dumps`), `updated_at` is always set to `now`,
everything else — in particular `created_at` — is untouched. -/
def applyUpdate (r : Row) (drawing : DrawingUpdate) (now : Nat) : Row :=
  { r with
    name := drawing.name.getD r.name,
    preview_image := drawing.preview_image.getD r.preview_image,
    canvas_state := (drawing.canvas_state.map json_dumps).getD r.canvas_state,
    updated_at := now }

/-- Whether the update request mentions at least one field
(`update_fields` nonempty in the source). -/
def hasField (drawing : DrawingUpdate) : Bool :=
  drawing.name.isSome || drawing.preview_image.isSome || drawing.canvas_state.isSome

/-- `update_drawing` (PUT /drawings/id): existence check first (404), then
the empty-update check (400), then the UPDATE and the re-read of the row;
building the response parses the re-read `canvas_state` (a failure there
surfaces as a 500, with the UPDATE already committed). -/
def update_drawing (db : DB) (drawing_id : String) (drawing : DrawingUpdate) (now : Nat) :
    DB × Except Err DrawingResponse :=
  if (db.find? fun r => r.id == drawing_id).isSome then
    if hasField drawing then
      let db2 := db.map fun r => if r.id == drawing_id then applyUpdate r drawing now else r
      match db2.find? fun r => r.id == drawing_id with
      | none => (db2, Except.error Err.internalError)
      | some row =>
        match rowResponse row with
        | none => (db2, Except.error Err.internalError)
        | some resp => (db2, Except.ok resp)
    else (db, Except.error Err.invalidRequest)
  else (db, Except.error Err.notFound)

/-- `delete_drawing` (DELETE /drawings/id): the DELETE removes the rows
with the given id; `cursor.rowcount == 0` (nothing removed) yields a 404,
otherwise the deletion is committed. -/
def delete_drawing (db : DB) (drawing_id : String) : DB × Except Err String :=
  let db2 := db.filter fun r => !(r.id == drawing_id)
  if db2.length = db.length then (db, Except.error Err.notFound)
  else (db2, Except.ok "Drawing deleted successfully")

/-- A row whose stored `canvas_state` parses back (true of every row this
API ever writes). -/
def WfRow (r : Row) : Prop := ∃ j, json_loads r.canvas_state = some j

/-- A table all of whose rows are well formed. -/
def WfDB (db : DB) : Prop := ∀ r ∈ db, WfRow r

/-- Lowercase hexadecimal digit characters, as `str(uuid.uuid4())` prints
them. -/
def hexChar : Nat → Char
  | 0 => '0'
  | 1 => '1'
  | 2 => '2'
  | 3 => '3'
  | 4 => '4'
  | 5 => '5'
  | 6 => '6'
  | 7 => '7'
  | 8 => '8'
  | 9 => '9'
  | 10 => 'a'
  | 11 => 'b'
  | 12 => 'c'
  | 13 => 'd'
  | 14 => 'e'
  | _ => 'f'

/-- Fixed-width big-endian hexadecimal rendering of a natural number. -/
def natToHex : Nat → Nat → List Char
  | 0, _ => []
  | w + 1, n => natToHex w (n / 16) ++ [hexChar (n % 16)]

/-- Numeric value of a lowercase hexadecimal digit. -/
def hexValChar (c : Char) : Nat := if c ≤ '9' then c.toNat - 48 else c.toNat - 87

/-- Models `str(uuid.uuid4())`: the canonical 8-4-4-4-12 hyphenated
lowercase-hex rendering of the UUID's 128-bit integer, `n` being that
integer after `uuid4` has forced the version and variant bits of the
16 random bytes. -/
def uuid4str (n : Nat) : String :=
  let h := natToHex 32 (n % 2 ^ 128)
  String.mk (h.take 8 ++ '-' :: ((h.drop 8).take 4 ++ '-' ::
    ((h.drop 12).take 4 ++ '-' :: ((h.drop 16).take 4 ++ '-' :: h.drop 20))))

/-- Sample values used by the concrete witnesses below. -/
def sampleRow : Row :=
  { id := "d1", name := "old", preview_image := "img",
    canvas_state := json_dumps JsonValue.null, created_at := 3, updated_at := 4 }

/-- An update request carrying only a new name. -/
def nameOnlyUpdate : DrawingUpdate :=
  { name := some "X", preview_image := none, canvas_state := none }

/-- The update request every field of which is absent (equally: the
request decoded from a body of three explicit JSON nulls). -/
def emptyUpdate : DrawingUpdate :=
  { name := none, preview_image := none, canvas_state := none }

/-- A sample nested canvas document. -/
def sampleCanvas : JsonValue :=
  JsonValue.obj (JsonObj.cons "shapes"
    (JsonValue.arr (JsonList.cons (JsonValue.num 5)
      (JsonList.cons (JsonValue.str "a\"b") JsonList.nil))) JsonObj.nil)

/-- A sample Create request. -/
def sampleCreate : DrawingCreate :=
  { name := "sketch", preview_image := "img9", canvas_state := sampleCanvas }

/-- A Create request with an empty name. -/
def emptyNameCreate : DrawingCreate :=
  { name := "", preview_image := "img9", canvas_state := JsonValue.obj JsonObj.nil }

lemma digitChar_isDigit (n : Nat) : (digitChar n).isDigit = true := by
  unfold digitChar
  split <;> decide

lemma charVal_digitChar {n : Nat} (h : n < 10) : charVal (digitChar n) = n := by
  interval_cases n <;> decide

lemma natCharsAux_spec :
    ∀ (fuel n : Nat), n < fuel →
      natCharsAux fuel n ≠ [] ∧
      (∀ c ∈ natCharsAux fuel n, c.isDigit = true) ∧
      ∀ acc : Nat,
        (natCharsAux fuel n).foldl (fun a c => a * 10 + charVal c) acc =
          acc * 10 ^ (natCharsAux fuel n).length + n
  | 0, _, h => absurd h (by omega)
  | fuel + 1, n, h => by
    by_cases h10 : n < 10
    · refine ⟨by simp [natCharsAux, h10], ?_, ?_⟩
      · intro c hc
        simp [natCharsAux, h10] at hc
        subst hc
        exact digitChar_isDigit n
      · intro acc
        simp [natCharsAux, h10, List.foldl, charVal_digitChar h10]
    · have hpos : 0 < n := by omega
      have hlt : n / 10 < fuel := by
        have := Nat.div_lt_self hpos (by omega : 1 < 10)
        omega
      obtain ⟨hne, hdig, hfold⟩ := natCharsAux_spec fuel (n / 10) hlt
      refine ⟨by simp [natCharsAux, h10], ?_, ?_⟩
      · intro c hc
        simp only [natCharsAux, if_neg h10, List.mem_append, List.mem_singleton] at hc
        rcases hc with hc | hc
        · exact hdig c hc
        · subst hc
          exact digitChar_isDigit (n % 10)
      · intro acc
        have hmod : n % 10 < 10 := Nat.mod_lt n (by omega)
        simp only [natCharsAux, if_neg h10, List.foldl_append, hfold acc, List.foldl,
          charVal_digitChar hmod, List.length_append, List.length_singleton]
        calc (acc * 10 ^ (natCharsAux fuel (n / 10)).length + n / 10) * 10 + n % 10
            = acc * (10 ^ (natCharsAux fuel (n / 10)).length * 10) +
                (10 * (n / 10) + n % 10) := by ring
          _ = acc * 10 ^ ((natCharsAux fuel (n / 10)).length + 1) + n := by
                rw [Nat.div_add_mod, ← pow_succ]

lemma natChars_ne_nil (n : Nat) : natChars n ≠ [] :=
  (natCharsAux_spec (n + 1) n (by omega)).1

lemma natChars_digits (n : Nat) : ∀ c ∈ natChars n, c.isDigit = true :=
  (natCharsAux_spec (n + 1) n (by omega)).2.1

lemma digitsToNat_natChars (n : Nat) : digitsToNat (natChars n) = n := by
  have h := (natCharsAux_spec (n + 1) n (by omega)).2.2 0
  simpa [digitsToNat, natChars] using h

lemma takeDigits_append (ds rest : List Char) (hd : ∀ c ∈ ds, c.isDigit = true)
    (hr : NonDigitStart rest) : takeDigits (ds ++ rest) = (ds, rest) := by
  induction ds with
  | nil =>
    cases rest with
    | nil => rfl
    | cons c t =>
      simp only [NonDigitStart] at hr
      simp [takeDigits, hr]
  | cons d t ih =>
    have hdd : d.isDigit = true := hd d (by simp)
    have ih2 := ih (fun c hc => hd c (by simp [hc]))
    simp [takeDigits, hdd, ih2]

lemma parseStrChars_escape (l rest : List Char) :
    parseStrChars (escapeChars l ++ '"' :: rest) = some (l, rest) := by
  induction l with
  | nil =>
    rw [escapeChars, List.nil_append, parseStrChars.eq_def]
    simp
  | cons c t ih =>
    by_cases hc : c = '"' ∨ c = '\\'
    · have h1 : ¬(('\\' : Char) = '"') := by decide
      rw [escapeChars, escapeChar, if_pos hc]
      simp only [List.cons_append, List.nil_append]
      rw [parseStrChars.eq_def]
      simp [h1, ih]
    · rw [escapeChars, escapeChar, if_neg hc]
      simp only [List.cons_append, List.nil_append]
      rw [parseStrChars.eq_def]
      push_neg at hc
      simp [hc.1, hc.2, ih]

lemma dropPre_append (pre rest : List Char) : dropPre pre (pre ++ rest) = some rest := by
  induction pre with
  | nil => rfl
  | cons p ps ih => simp [dropPre, ih]

lemma parseNum_natChars (n : Nat) (rest : List Char) (hr : NonDigitStart rest) :
    parseNum (natChars n ++ rest) = some (JsonValue.num (Int.ofNat n), rest) := by
  have htake : takeDigits (natChars n ++ rest) = (natChars n, rest) :=
    takeDigits_append _ _ (natChars_digits n) hr
  obtain ⟨d, ds, hds⟩ : ∃ d ds, natChars n = d :: ds := by
    cases h : natChars n with
    | nil => exact absurd h (natChars_ne_nil n)
    | cons d ds => exact ⟨d, ds, rfl⟩
  have hdd : d.isDigit = true := natChars_digits n d (by rw [hds]; simp)
  have hdm : ¬(d = '-') := by
    intro he
    rw [he] at hdd
    simp at hdd
  rw [hds, List.cons_append, parseNum.eq_def]
  simp only [if_neg hdm]
  rw [← List.cons_append, ← hds, htake]
  simp [natChars_ne_nil n, digitsToNat_natChars]

lemma parseNum_intChars (i : Int) (rest : List Char) (hr : NonDigitStart rest) :
    parseNum (intChars i ++ rest) = some (JsonValue.num i, rest) := by
  cases i with
  | ofNat n => exact parseNum_natChars n rest hr
  | negSucc n =>
    have htake : takeDigits (natChars (n + 1) ++ rest) = (natChars (n + 1), rest) :=
      takeDigits_append _ _ (natChars_digits (n + 1)) hr
    rw [intChars, List.cons_append, parseNum.eq_def]
    simp [htake, natChars_ne_nil (n + 1), digitsToNat_natChars]
    rw [Int.negSucc_eq]
    ring

lemma ndStart (c : Char) (h : c.isDigit = false) (l : List Char) : NonDigitStart (c :: l) := h

lemma ndStartNil : NonDigitStart [] := trivial

lemma stringMk_data (s : String) : String.mk s.data = s := rfl

lemma natChars_head (n : Nat) : ∃ d ds, natChars n = d :: ds ∧ d.isDigit = true := by
  cases h : natChars n with
  | nil => exact absurd h (natChars_ne_nil n)
  | cons d ds => exact ⟨d, ds, rfl, natChars_digits n d (by rw [h]; simp)⟩

lemma serializeVal_head (j : JsonValue) :
    ∃ c cs, serializeVal j = c :: cs ∧ c ≠ ']' ∧ c ≠ '}' := by
  cases j with
  | null => exact ⟨'n', _, rfl, by decide, by decide⟩
  | bool b =>
    cases b with
    | false => exact ⟨'f', _, rfl, by decide, by decide⟩
    | true => exact ⟨'t', _, rfl, by decide, by decide⟩
  | num i =>
    cases i with
    | ofNat n =>
      obtain ⟨d, ds, hds, hdd⟩ := natChars_head n
      refine ⟨d, ds, ?_, ?_, ?_⟩
      · show intChars (Int.ofNat n) = d :: ds
        rw [intChars]
        exact hds
      · intro he
        rw [he] at hdd
        simp at hdd
      · intro he
        rw [he] at hdd
        simp at hdd
    | negSucc n => exact ⟨'-', _, rfl, by decide, by decide⟩
  | str s => exact ⟨'"', _, rfl, by decide, by decide⟩
  | arr xs => exact ⟨'[', _, rfl, by decide, by decide⟩
  | obj kvs => exact ⟨'{', _, rfl, by decide, by decide⟩


lemma sv_null : serializeVal JsonValue.null = ['n', 'u', 'l', 'l'] := rfl

lemma sv_true : serializeVal (JsonValue.bool true) = ['t', 'r', 'u', 'e'] := rfl

lemma sv_false : serializeVal (JsonValue.bool false) = ['f', 'a', 'l', 's', 'e'] := rfl

lemma sv_num (i : Int) : serializeVal (JsonValue.num i) = intChars i := rfl

lemma sv_str (s : String) : serializeVal (JsonValue.str s) = strLit s := rfl

lemma sv_arr (xs : JsonList) : serializeVal (JsonValue.arr xs) = '[' :: serializeElems xs := rfl

lemma sv_obj (kvs : JsonObj) :
    serializeVal (JsonValue.obj kvs) = '{' :: serializeMembers kvs := rfl

lemma se_nil : serializeElems JsonList.nil = [']'] := rfl

lemma se_cons (x : JsonValue) (tl : JsonList) :
    serializeElems (JsonList.cons x tl) = serializeVal x ++ serializeElemsTail tl := rfl

lemma set_nil : serializeElemsTail JsonList.nil = [']'] := rfl

lemma set_cons (y : JsonValue) (tl : JsonList) :
    serializeElemsTail (JsonList.cons y tl) =
      ',' :: ' ' :: (serializeVal y ++ serializeElemsTail tl) := rfl

lemma sm_nil : serializeMembers JsonObj.nil = ['}'] := rfl

lemma sm_cons (k : String) (v : JsonValue) (tl : JsonObj) :
    serializeMembers (JsonObj.cons k v tl) =
      strLit k ++ ':' :: ' ' :: (serializeVal v ++ serializeMembersTail tl) := rfl

lemma smt_nil : serializeMembersTail JsonObj.nil = ['}'] := rfl

lemma smt_cons (k : String) (v : JsonValue) (tl : JsonObj) :
    serializeMembersTail (JsonObj.cons k v tl) =
      ',' :: ' ' :: (strLit k ++ ':' :: ' ' :: (serializeVal v ++ serializeMembersTail tl)) := rfl

mutual
theorem parseValue_serializeVal (j : JsonValue) (fuel : Nat) (hf : fuelVal j ≤ fuel)
    (rest : List Char) (hr : NonDigitStart rest) :
    parseValue fuel (serializeVal j ++ rest) = some (j, rest) := by
  cases j with
  | null =>
    have e : fuelVal JsonValue.null = 1 := rfl
    cases fuel with
    | zero => omega
    | succ f =>
      have hd := dropPre_append ['u', 'l', 'l'] rest
      simp only [List.cons_append, List.nil_append] at hd
      rw [sv_null]
      simp only [List.cons_append, List.nil_append]
      rw [parseValue.eq_def]
      simp [hd]
  | bool b =>
    have e : fuelVal (JsonValue.bool b) = 1 := rfl
    cases fuel with
    | zero => omega
    | succ f =>
      cases b with
      | true =>
        have hd := dropPre_append ['r', 'u', 'e'] rest
        simp only [List.cons_append, List.nil_append] at hd
        rw [sv_true]
        simp only [List.cons_append, List.nil_append]
        rw [parseValue.eq_def]
        simp [hd]
      | false =>
        have hd := dropPre_append ['a', 'l', 's', 'e'] rest
        simp only [List.cons_append, List.nil_append] at hd
        rw [sv_false]
        simp only [List.cons_append, List.nil_append]
        rw [parseValue.eq_def]
        simp [hd]
  | num i =>
    have e : fuelVal (JsonValue.num i) = 1 := rfl
    cases fuel with
    | zero => omega
    | succ f =>
      cases i with
      | ofNat n =>
        obtain ⟨d, ds, hds, hdd⟩ := natChars_head n
        have hpn := parseNum_natChars n rest hr
        rw [sv_num, intChars, hds, List.cons_append, parseValue.eq_def]
        simp only [hdd, if_true]
        rw [← List.cons_append, ← hds]
        exact hpn
      | negSucc n =>
        have hpn := parseNum_intChars (Int.negSucc n) rest hr
        rw [sv_num, intChars, List.cons_append, parseValue.eq_def]
        have h1 : ('-' : Char).isDigit = false := by decide
        simp only [h1, Bool.false_eq_true, if_false, if_pos rfl]
        rw [← List.cons_append]
        rw [intChars] at hpn
        exact hpn
  | str s =>
    have e : fuelVal (JsonValue.str s) = 1 := rfl
    cases fuel with
    | zero => omega
    | succ f =>
      have hp := parseStrChars_escape s.data rest
      rw [sv_str]
      simp only [strLit, List.cons_append, List.nil_append, List.append_assoc,
        List.singleton_append]
      rw [parseValue.eq_def]
      simp [hp, stringMk_data]
  | arr xs =>
    cases xs with
    | nil =>
      have e : fuelVal (JsonValue.arr JsonList.nil) = 2 := rfl
      cases fuel with
      | zero => omega
      | succ f =>
        rw [sv_arr, se_nil, List.cons_append, List.singleton_append, parseValue.eq_def]
        simp
    | cons x tl =>
      have e : fuelVal (JsonValue.arr (JsonList.cons x tl)) =
          max (fuelVal x) (fuelList tl) + 2 := rfl
      cases fuel with
      | zero => omega
      | succ f =>
        have hfl : fuelList (JsonList.cons x tl) ≤ f := by
          have e2 : fuelList (JsonList.cons x tl) = max (fuelVal x) (fuelList tl) + 1 := rfl
          omega
        obtain ⟨c, cs, hcs, hc1, hc2⟩ := serializeVal_head x
        have hel := parseElems_serialize x tl f hfl rest
        rw [sv_arr, se_cons, List.cons_append, parseValue.eq_def]
        simp only [List.append_assoc] at hel ⊢
        rw [hcs] at hel ⊢
        simp only [List.cons_append] at hel ⊢
        simp [hc1, hel]
  | obj kvs =>
    cases kvs with
    | nil =>
      have e : fuelVal (JsonValue.obj JsonObj.nil) = 2 := rfl
      cases fuel with
      | zero => omega
      | succ f =>
        rw [sv_obj, sm_nil, List.cons_append, List.singleton_append, parseValue.eq_def]
        simp
    | cons k v tl =>
      have e : fuelVal (JsonValue.obj (JsonObj.cons k v tl)) =
          max (fuelVal v) (fuelObj tl) + 2 := rfl
      cases fuel with
      | zero => omega
      | succ f =>
        have hfo : fuelObj (JsonObj.cons k v tl) ≤ f := by
          have e2 : fuelObj (JsonObj.cons k v tl) = max (fuelVal v) (fuelObj tl) + 1 := rfl
          omega
        have hmem := parseMembers_serialize k v tl f hfo rest
        rw [sv_obj, sm_cons, List.cons_append, parseValue.eq_def]
        simp only [strLit, List.cons_append, List.nil_append, List.append_assoc,
          List.singleton_append] at hmem ⊢
        simp [hmem]
termination_by sizeOf j

theorem parseElems_serialize (x : JsonValue) (tl : JsonList) (fuel : Nat)
    (hf : fuelList (JsonList.cons x tl) ≤ fuel) (rest : List Char) :
    parseElems fuel (serializeVal x ++ (serializeElemsTail tl ++ rest)) =
      some (JsonList.cons x tl, rest) := by
  have e : fuelList (JsonList.cons x tl) = max (fuelVal x) (fuelList tl) + 1 := rfl
  cases fuel with
  | zero => omega
  | succ f =>
    have hvx : fuelVal x ≤ f := by omega
    cases tl with
    | nil =>
      have hv := parseValue_serializeVal x f hvx (']' :: rest) (ndStart _ (by decide) _)
      rw [set_nil, List.singleton_append, parseElems.eq_def]
      simp [hv]
    | cons y tl2 =>
      have hly : fuelList (JsonList.cons y tl2) ≤ f := by
        have e2 : fuelList (JsonList.cons y tl2) = max (fuelVal y) (fuelList tl2) + 1 := rfl
        omega
      have htl := parseElems_serialize y tl2 f hly rest
      have hv := parseValue_serializeVal x f hvx
        (',' :: ' ' :: (serializeVal y ++ (serializeElemsTail tl2 ++ rest)))
        (ndStart _ (by decide) _)
      rw [set_cons, parseElems.eq_def]
      simp only [List.cons_append, List.append_assoc] at hv htl ⊢
      simp [hv, htl]
termination_by sizeOf (JsonList.cons x tl)

theorem parseMembers_serialize (k : String) (v : JsonValue) (tl : JsonObj) (fuel : Nat)
    (hf : fuelObj (JsonObj.cons k v tl) ≤ fuel) (rest : List Char) :
    parseMembers fuel
        (strLit k ++ (':' :: ' ' :: (serializeVal v ++ (serializeMembersTail tl ++ rest)))) =
      some (JsonObj.cons k v tl, rest) := by
  have e : fuelObj (JsonObj.cons k v tl) = max (fuelVal v) (fuelObj tl) + 1 := rfl
  cases fuel with
  | zero => omega
  | succ f =>
    have hvv : fuelVal v ≤ f := by omega
    cases tl with
    | nil =>
      have hks := parseStrChars_escape k.data (':' :: ' ' :: (serializeVal v ++ ('}' :: rest)))
      have hv := parseValue_serializeVal v f hvv ('}' :: rest) (ndStart _ (by decide) _)
      rw [smt_nil, parseMembers.eq_def]
      simp only [strLit, List.cons_append, List.nil_append, List.append_assoc,
        List.singleton_append] at hks hv ⊢
      simp [hks, hv, stringMk_data]
    | cons k2 v2 tl2 =>
      have hm2 : fuelObj (JsonObj.cons k2 v2 tl2) ≤ f := by
        have e2 : fuelObj (JsonObj.cons k2 v2 tl2) = max (fuelVal v2) (fuelObj tl2) + 1 := rfl
        omega
      have htl := parseMembers_serialize k2 v2 tl2 f hm2 rest
      have hv := parseValue_serializeVal v f hvv
        (',' :: ' ' :: (strLit k2 ++
          (':' :: ' ' :: (serializeVal v2 ++ (serializeMembersTail tl2 ++ rest)))))
        (ndStart _ (by decide) _)
      have hks := parseStrChars_escape k.data
        (':' :: ' ' :: (serializeVal v ++ (',' :: ' ' :: (strLit k2 ++
          (':' :: ' ' :: (serializeVal v2 ++ (serializeMembersTail tl2 ++ rest)))))))
      rw [smt_cons, parseMembers.eq_def]
      simp only [strLit, List.cons_append, List.nil_append, List.append_assoc,
        List.singleton_append] at hks hv htl ⊢
      simp [hks, hv, htl, stringMk_data]
termination_by sizeOf (JsonObj.cons k v tl)
end

lemma fuelList_pos (tl : JsonList) : 1 ≤ fuelList tl := by
  cases tl with
  | nil => exact le_refl _
  | cons y tl2 =>
    have e : fuelList (JsonList.cons y tl2) = max (fuelVal y) (fuelList tl2) + 1 := rfl
    omega

lemma fuelObj_pos (kvs : JsonObj) : 1 ≤ fuelObj kvs := by
  cases kvs with
  | nil => exact le_refl _
  | cons k v tl2 =>
    have e : fuelObj (JsonObj.cons k v tl2) = max (fuelVal v) (fuelObj tl2) + 1 := rfl
    omega

lemma serializeVal_length_pos (j : JsonValue) : 1 ≤ (serializeVal j).length := by
  obtain ⟨c, cs, hcs, _, _⟩ := serializeVal_head j
  rw [hcs]
  simp

mutual
theorem fuelVal_le (j : JsonValue) : fuelVal j ≤ (serializeVal j).length := by
  cases j with
  | null => decide
  | bool b => cases b <;> decide
  | num i =>
    have e : fuelVal (JsonValue.num i) = 1 := rfl
    have hp := serializeVal_length_pos (JsonValue.num i)
    omega
  | str s =>
    have e : fuelVal (JsonValue.str s) = 1 := rfl
    have hp := serializeVal_length_pos (JsonValue.str s)
    omega
  | arr xs =>
    cases xs with
    | nil => decide
    | cons x tl =>
      have e : fuelVal (JsonValue.arr (JsonList.cons x tl)) =
          max (fuelVal x) (fuelList tl) + 2 := rfl
      have hA := fuelVal_le x
      have hC := fuelListTail_le tl
      have hpx := serializeVal_length_pos x
      have hfp := fuelList_pos tl
      rw [sv_arr, se_cons]
      simp only [List.length_cons, List.length_append]
      omega
  | obj kvs =>
    cases kvs with
    | nil => decide
    | cons k v tl =>
      have e : fuelVal (JsonValue.obj (JsonObj.cons k v tl)) =
          max (fuelVal v) (fuelObj tl) + 2 := rfl
      have hA := fuelVal_le v
      have hE := fuelObjTail_le tl
      rw [sv_obj, sm_cons]
      simp only [List.length_cons, List.length_append]
      omega
termination_by sizeOf j

theorem fuelListTail_le (tl : JsonList) : fuelList tl ≤ (serializeElemsTail tl).length := by
  cases tl with
  | nil => decide
  | cons y tl2 =>
    have e : fuelList (JsonList.cons y tl2) = max (fuelVal y) (fuelList tl2) + 1 := rfl
    have hA := fuelVal_le y
    have hC := fuelListTail_le tl2
    rw [set_cons]
    simp only [List.length_cons, List.length_append]
    omega
termination_by sizeOf tl

theorem fuelObjTail_le (kvs : JsonObj) : fuelObj kvs ≤ (serializeMembersTail kvs).length := by
  cases kvs with
  | nil => decide
  | cons k v tl2 =>
    have e : fuelObj (JsonObj.cons k v tl2) = max (fuelVal v) (fuelObj tl2) + 1 := rfl
    have hA := fuelVal_le v
    have hE := fuelObjTail_le tl2
    rw [smt_cons]
    simp only [List.length_cons, List.length_append]
    omega
termination_by sizeOf kvs
end

lemma data_mk (l : List Char) : (String.mk l).data = l := rfl

/-- The storage round-trip of the `canvas_state` column is lossless:
parsing (`json.loads`) the serialized text (`json.dumps`) of any
JSON-representable document recovers the document exactly. -/
theorem json_loads_dumps (j : JsonValue) : json_loads (json_dumps j) = some j := by
  have hfl := fuelVal_le j
  have h := parseValue_serializeVal j ((serializeVal j).length + 1) (by omega) [] ndStartNil
  rw [List.append_nil] at h
  unfold json_loads json_dumps
  rw [data_mk, h]

lemma applyUpdate_id (r : Row) (drawing : DrawingUpdate) (now : Nat) :
    (applyUpdate r drawing now).id = r.id := rfl

lemma applyUpdate_created (r : Row) (drawing : DrawingUpdate) (now : Nat) :
    (applyUpdate r drawing now).created_at = r.created_at := rfl

lemma find?_map_applyUpdate (db : DB) (drawing_id : String) (drawing : DrawingUpdate)
    (now : Nat) (r : Row) (h : db.find? (fun s => s.id == drawing_id) = some r) :
    (db.map fun s => if s.id == drawing_id then applyUpdate s drawing now else s).find?
        (fun s => s.id == drawing_id) = some (applyUpdate r drawing now) := by
  induction db with
  | nil => simp at h
  | cons a t ih =>
    by_cases hpa : (a.id == drawing_id) = true
    · simp only [List.find?_cons, hpa] at h
      injection h with h
      subst h
      simp only [List.map_cons, if_pos hpa]
      have hpa2 : ((applyUpdate a drawing now).id == drawing_id) = true := by
        rw [applyUpdate_id]
        exact hpa
      simp only [List.find?_cons, hpa2]
    · have hfa : (a.id == drawing_id) = false := by simpa using hpa
      simp only [List.find?_cons, hfa] at h
      simp only [List.map_cons]
      rw [if_neg hpa]
      simp only [List.find?_cons, hfa]
      exact ih h

lemma mem_map_applyUpdate_of_ne {db : DB} {drawing_id : String} {drawing : DrawingUpdate}
    {now : Nat} {s : Row} (hs : s ∈ db) (hne : (s.id == drawing_id) = false) :
    s ∈ db.map fun r => if r.id == drawing_id then applyUpdate r drawing now else r := by
  refine List.mem_map.mpr ⟨s, hs, ?_⟩
  simp [hne]

lemma map_created_at_applyUpdate (db : DB) (drawing_id : String) (drawing : DrawingUpdate)
    (now : Nat) :
    ((db.map fun r => if r.id == drawing_id then applyUpdate r drawing now else r).map
        Row.created_at) = db.map Row.created_at := by
  rw [List.map_map]
  refine List.map_congr_left fun r hr => ?_
  by_cases h : (r.id == drawing_id) = true
  · have h2 : r.id = drawing_id := by simpa using h
    simp [h2, applyUpdate]
  · have h2 : ¬(r.id = drawing_id) := by simpa using h
    simp [h2]

lemma insertByUpdated_perm (r : Row) (l : List Row) : (insertByUpdated r l).Perm (r :: l) := by
  induction l with
  | nil => exact List.Perm.refl _
  | cons s t ih =>
    by_cases h : s.updated_at ≤ r.updated_at
    · rw [insertByUpdated, if_pos h]
    · rw [insertByUpdated, if_neg h]
      exact (ih.cons s).trans (List.Perm.swap r s t)

lemma sortByUpdated_perm (db : DB) : (sortByUpdated db).Perm db := by
  induction db with
  | nil => exact List.Perm.refl _
  | cons r t ih =>
    show (insertByUpdated r (sortByUpdated t)).Perm (r :: t)
    exact (insertByUpdated_perm r (sortByUpdated t)).trans (ih.cons r)

lemma insertByUpdated_sorted (r : Row) (l : List Row)
    (h : l.Pairwise fun a b => b.updated_at ≤ a.updated_at) :
    (insertByUpdated r l).Pairwise fun a b => b.updated_at ≤ a.updated_at := by
  induction l with
  | nil => simp [insertByUpdated]
  | cons s t ih =>
    rcases List.pairwise_cons.mp h with ⟨hs, ht⟩
    by_cases hle : s.updated_at ≤ r.updated_at
    · rw [insertByUpdated, if_pos hle]
      refine List.pairwise_cons.mpr ⟨?_, h⟩
      intro b hb
      rcases List.mem_cons.mp hb with rfl | hb
      · exact hle
      · exact le_trans (hs b hb) hle
    · rw [insertByUpdated, if_neg hle]
      refine List.pairwise_cons.mpr ⟨?_, ih ht⟩
      intro b hb
      have hmem : b = r ∨ b ∈ t := by
        have := (insertByUpdated_perm r t).mem_iff.mp hb
        simpa using this
      rcases hmem with rfl | hb2
      · omega
      · exact hs b hb2

lemma sortByUpdated_sorted (db : DB) :
    (sortByUpdated db).Pairwise fun a b => b.updated_at ≤ a.updated_at := by
  induction db with
  | nil => exact List.Pairwise.nil
  | cons r t ih => exact insertByUpdated_sorted r (sortByUpdated t) ih

lemma rowResponse_updated {r : Row} {x : DrawingResponse} (h : rowResponse r = some x) :
    x.updated_at = r.updated_at := by
  rcases Option.map_eq_some'.mp h with ⟨cs, hcs, rfl⟩
  rfl

lemma allResponses_eq_some (rows : List Row) (h : ∀ r ∈ rows, WfRow r) :
    ∃ l, allResponses rows = some l ∧
      List.Forall₂ (fun r x => rowResponse r = some x) rows l := by
  induction rows with
  | nil => exact ⟨[], rfl, List.Forall₂.nil⟩
  | cons r t ih =>
    obtain ⟨j, hj⟩ := h r (by simp)
    obtain ⟨l, hl, hfa⟩ := ih fun s hs => h s (by simp [hs])
    have hx : rowResponse r = some
        { id := r.id, name := r.name, preview_image := r.preview_image,
          canvas_state := j, created_at := r.created_at, updated_at := r.updated_at } := by
      simp [rowResponse, hj]
    refine ⟨_, ?_, List.Forall₂.cons hx hfa⟩
    simp [allResponses, hx, hl]

lemma exists_left_of_forall₂ {R : Row → DrawingResponse → Prop} {as : List Row}
    {bs : List DrawingResponse} (h : List.Forall₂ R as bs) :
    ∀ b ∈ bs, ∃ a ∈ as, R a b := by
  induction h with
  | nil => intro b hb; simp at hb
  | cons hR htl ih =>
    intro b hb
    rcases List.mem_cons.mp hb with rfl | hb
    · exact ⟨_, by simp, hR⟩
    · obtain ⟨a, ha, hab⟩ := ih b hb
      exact ⟨a, by simp [ha], hab⟩

lemma pairwise_of_forall₂ {rows : List Row} {l : List DrawingResponse}
    (hfa : List.Forall₂ (fun r x => rowResponse r = some x) rows l)
    (hp : rows.Pairwise fun a b => b.updated_at ≤ a.updated_at) :
    l.Pairwise fun a b => b.updated_at ≤ a.updated_at := by
  induction hfa with
  | nil => exact List.Pairwise.nil
  | cons hhd htl ih =>
    rcases List.pairwise_cons.mp hp with ⟨hhead, htail⟩
    refine List.pairwise_cons.mpr ⟨?_, ih htail⟩
    intro b hb
    obtain ⟨rb, hrb, hRb⟩ := exists_left_of_forall₂ htl b hb
    rw [rowResponse_updated hRb, rowResponse_updated hhd]
    exact hhead rb hrb

lemma allResponses_filterMap {rows : List Row} {l : List DrawingResponse}
    (h : allResponses rows = some l) : l = rows.filterMap rowResponse := by
  induction rows generalizing l with
  | nil =>
    simp only [allResponses] at h
    injection h with h
    subst h
    simp
  | cons r t ih =>
    simp only [allResponses] at h
    cases hx : rowResponse r with
    | none => rw [hx] at h; simp at h
    | some x =>
      cases ht : allResponses t with
      | none => rw [hx, ht] at h; simp at h
      | some lt =>
        rw [hx, ht] at h
        injection h with h
        subst h
        simp [List.filterMap_cons, hx, ih ht]

lemma filter_ne_of_find?_none {db : DB} {id0 : String}
    (h : db.find? (fun r => r.id == id0) = none) :
    db.filter (fun r => !(r.id == id0)) = db := by
  rw [List.filter_eq_self]
  intro r hr
  have hx := List.find?_eq_none.mp h r hr
  simp at hx
  simp [hx]

lemma find?_filter_ne (db : DB) (id0 : String) :
    (db.filter fun r => !(r.id == id0)).find? (fun r => r.id == id0) = none := by
  rw [List.find?_eq_none]
  intro x hx
  have hp := List.of_mem_filter hx
  simp at hp
  simp [hp]

lemma length_filter_ne_lt {db : DB} {id0 : String} {r : Row}
    (hr : r ∈ db) (hid : (r.id == id0) = true) :
    (db.filter fun s => !(s.id == id0)).length < db.length := by
  refine List.length_filter_lt_length_iff_exists.mpr ⟨r, hr, ?_⟩
  simp [hid]

lemma update_drawing_spec (db : DB) (did : String) (u : DrawingUpdate) (now : Nat)
    (r : Row) (j0 : JsonValue)
    (hfind : db.find? (fun s => s.id == did) = some r)
    (hpresent : hasField u = true)
    (hwf : json_loads r.canvas_state = some j0) :
    update_drawing db did u now =
      (db.map fun s => if s.id == did then applyUpdate s u now else s,
       Except.ok
         { id := r.id, name := u.name.getD r.name,
           preview_image := u.preview_image.getD r.preview_image,
           canvas_state := u.canvas_state.getD j0,
           created_at := r.created_at, updated_at := now }) := by
  have hfound := find?_map_applyUpdate db did u now r hfind
  have hresp : rowResponse (applyUpdate r u now) = some
      { id := r.id, name := u.name.getD r.name,
        preview_image := u.preview_image.getD r.preview_image,
        canvas_state := u.canvas_state.getD j0,
        created_at := r.created_at, updated_at := now } := by
    cases hc : u.canvas_state with
    | none => simp [rowResponse, applyUpdate, hc, hwf]
    | some cjson => simp [rowResponse, applyUpdate, hc, json_loads_dumps]
  unfold update_drawing
  rw [hfind]
  simp only [Option.isSome_some, hpresent, eq_self_iff_true, if_true]
  simp only [hfound, hresp]

lemma update_drawing_fst (db : DB) (did : String) (u : DrawingUpdate) (now : Nat) :
    (update_drawing db did u now).1 = db ∨
    (update_drawing db did u now).1 =
      db.map fun s => if s.id == did then applyUpdate s u now else s := by
  unfold update_drawing
  by_cases h1 : ((db.find? fun r => r.id == did).isSome) = true
  · by_cases h2 : hasField u = true
    · simp only [h1, if_true, h2]
      right
      cases hf : (db.map fun r => if r.id == did then applyUpdate r u now else r).find?
          (fun r => r.id == did) with
      | none => simp [hf]
      | some row =>
        cases hrr : rowResponse row with
        | none => simp [hf, hrr]
        | some resp => simp [hf, hrr]
    · simp [h1, h2]
  · simp [h1]

/-- C1: for every valid Create input and a fresh generated id, Create
succeeds and a subsequent Get on that id returns exactly the record Create
returned — every field agrees, and the `canvas_state` document survives
the serialize-on-write / parse-on-read storage round-trip unchanged, for
an arbitrary JSON-representable document. -/
theorem create_then_get_roundtrip (db : DB) (drawing : DrawingCreate)
    (drawing_id : String) (now : Nat)
    (hfresh : db.find? (fun r => r.id == drawing_id) = none) :
    ∃ db2 resp,
      create_drawing db drawing drawing_id now = (db2, Except.ok resp) ∧
      get_drawing db2 drawing_id = Except.ok resp ∧
      resp.id = drawing_id ∧
      resp.name = drawing.name ∧
      resp.preview_image = drawing.preview_image ∧
      resp.canvas_state = drawing.canvas_state ∧
      resp.created_at = now ∧
      resp.updated_at = now := by
  refine ⟨db ++ [{ id := drawing_id, name := drawing.name,
                   preview_image := drawing.preview_image,
                   canvas_state := json_dumps drawing.canvas_state,
                   created_at := now, updated_at := now }],
    { id := drawing_id, name := drawing.name, preview_image := drawing.preview_image,
      canvas_state := drawing.canvas_state, created_at := now, updated_at := now },
    ?_, ?_, rfl, rfl, rfl, rfl, rfl, rfl⟩
  · simp [create_drawing, hfresh]
  · have hfind : (db ++ [({ id := drawing_id, name := drawing.name,
                            preview_image := drawing.preview_image,
                            canvas_state := json_dumps drawing.canvas_state,
                            created_at := now, updated_at := now } : Row)]).find?
          (fun r => r.id == drawing_id) =
        some { id := drawing_id, name := drawing.name,
               preview_image := drawing.preview_image,
               canvas_state := json_dumps drawing.canvas_state,
               created_at := now, updated_at := now } := by
      rw [List.find?_append, hfresh]
      simp [List.find?_cons]
    simp [get_drawing, hfind, rowResponse, json_loads_dumps]

/-- C1 witness: a concrete Create (nested canvas document) followed by Get
returns the identical record. -/
theorem create_then_get_roundtrip_witness :
    ([] : DB).find? (fun r => r.id == "d1") = none ∧
    ∃ db2 resp,
      create_drawing []
          { name := "sketch", preview_image := "img9",
            canvas_state := JsonValue.obj (JsonObj.cons "shapes"
              (JsonValue.arr (JsonList.cons (JsonValue.num 5)
                (JsonList.cons (JsonValue.str "a\"b") JsonList.nil))) JsonObj.nil) }
          "d1" 7 = (db2, Except.ok resp) ∧
      get_drawing db2 "d1" = Except.ok resp ∧
      resp.id = "d1" ∧
      resp.name = "sketch" ∧
      resp.preview_image = "img9" ∧
      resp.canvas_state = JsonValue.obj (JsonObj.cons "shapes"
        (JsonValue.arr (JsonList.cons (JsonValue.num 5)
          (JsonList.cons (JsonValue.str "a\"b") JsonList.nil))) JsonObj.nil) ∧
      resp.created_at = 7 ∧
      resp.updated_at = 7 :=
  ⟨rfl, create_then_get_roundtrip [] _ "d1" 7 rfl⟩

/-- C2: updating an existing record with at least one present field
overwrites exactly the present fields, resets `updated_at` to the current
time, keeps `created_at` and every absent field unchanged, returns the
full post-update record as re-read from storage, and leaves every other
row untouched. -/
theorem update_merges_present_fields (db : DB) (did : String) (u : DrawingUpdate)
    (now : Nat) (r : Row) (j0 : JsonValue)
    (hfind : db.find? (fun s => s.id == did) = some r)
    (hpresent : hasField u = true)
    (hwf : json_loads r.canvas_state = some j0) :
    update_drawing db did u now =
      (db.map fun s => if s.id == did then applyUpdate s u now else s,
       Except.ok
         { id := r.id, name := u.name.getD r.name,
           preview_image := u.preview_image.getD r.preview_image,
           canvas_state := u.canvas_state.getD j0,
           created_at := r.created_at, updated_at := now }) ∧
    (∀ s ∈ db, (s.id == did) = false → s ∈ (update_drawing db did u now).1) ∧
    (update_drawing db did u now).1.map Row.created_at = db.map Row.created_at := by
  have hmain := update_drawing_spec db did u now r j0 hfind hpresent hwf
  refine ⟨hmain, ?_, ?_⟩
  · intro s hs hne
    rw [hmain]
    exact mem_map_applyUpdate_of_ne hs hne
  · rw [hmain]
    exact map_created_at_applyUpdate db did u now

/-- C2 witness: updating only the name overwrites the name, keeps the
other fields and `created_at`, and bumps `updated_at`. -/
theorem update_merges_present_fields_witness :
    ([sampleRow].find? (fun s => s.id == "d1") = some sampleRow) ∧
    hasField nameOnlyUpdate = true ∧
    json_loads sampleRow.canvas_state = some JsonValue.null ∧
    update_drawing [sampleRow] "d1" nameOnlyUpdate 9 =
      ([sampleRow].map fun s => if s.id == "d1" then applyUpdate s nameOnlyUpdate 9 else s,
       Except.ok
         { id := "d1", name := "X", preview_image := "img",
           canvas_state := JsonValue.null, created_at := 3, updated_at := 9 }) :=
  ⟨rfl, rfl, json_loads_dumps JsonValue.null,
    (update_merges_present_fields [sampleRow] "d1" nameOnlyUpdate 9 sampleRow
      JsonValue.null rfl rfl (json_loads_dumps JsonValue.null)).1⟩

/-- C3: an Update of an existing record in which zero fields are present
fails with `InvalidRequest` (HTTP 400) and leaves the table — including
`updated_at` — entirely unchanged. -/
theorem update_zero_fields_rejected (db : DB) (did : String) (u : DrawingUpdate)
    (now : Nat) (r : Row)
    (hfind : db.find? (fun s => s.id == did) = some r)
    (hnone : hasField u = false) :
    update_drawing db did u now = (db, Except.error Err.invalidRequest) ∧
    Err.invalidRequest.httpStatus = 400 :=
  ⟨by simp [update_drawing, hfind, hnone], rfl⟩

/-- C3 witness: a concrete empty update on an existing record yields 400
and the table is unchanged. -/
theorem update_zero_fields_rejected_witness :
    ([sampleRow].find? (fun s => s.id == "d1") = some sampleRow) ∧
    hasField emptyUpdate = false ∧
    update_drawing [sampleRow] "d1" emptyUpdate 9 =
      ([sampleRow], Except.error Err.invalidRequest) ∧
    Err.invalidRequest.httpStatus = 400 :=
  ⟨rfl, rfl,
    (update_zero_fields_rejected [sampleRow] "d1" emptyUpdate 9 sampleRow rfl rfl).1,
    (update_zero_fields_rejected [sampleRow] "d1" emptyUpdate 9 sampleRow rfl rfl).2⟩

/-- C4: Get, Update and Delete on an id with no stored record each fail
with `NotFound` (HTTP 404); and after a successful Delete, a subsequent
Get on that id fails with `NotFound` and a second Delete also fails with
`NotFound`. -/
theorem missing_id_not_found (db : DB) (did : String) (u : DrawingUpdate) (now : Nat) :
    (db.find? (fun r => r.id == did) = none →
      get_drawing db did = Except.error Err.notFound ∧
      update_drawing db did u now = (db, Except.error Err.notFound) ∧
      delete_drawing db did = (db, Except.error Err.notFound)) ∧
    (∀ msg, (delete_drawing db did).2 = Except.ok msg →
      get_drawing (delete_drawing db did).1 did = Except.error Err.notFound ∧
      delete_drawing (delete_drawing db did).1 did =
        ((delete_drawing db did).1, Except.error Err.notFound)) ∧
    Err.notFound.httpStatus = 404 := by
  refine ⟨?_, ?_, rfl⟩
  · intro h
    refine ⟨by simp [get_drawing, h], by simp [update_drawing, h], ?_⟩
    simp [delete_drawing, filter_ne_of_find?_none h]
  · intro msg hok
    by_cases hlen : (db.filter fun r => !(r.id == did)).length = db.length
    · rw [delete_drawing] at hok
      simp only [hlen, if_true] at hok
      cases hok
    · have hfst : (delete_drawing db did).1 = db.filter fun r => !(r.id == did) := by
        rw [delete_drawing]
        simp [hlen]
      have hnone := find?_filter_ne db did
      constructor
      · rw [hfst]
        simp [get_drawing, hnone]
      · rw [hfst]
        simp [delete_drawing, filter_ne_of_find?_none hnone]

/-- C4 witness: on the empty table all three operations 404; deleting the
sample row succeeds and then Get and a second Delete on that id 404. -/
theorem missing_id_not_found_witness :
    (([] : DB).find? (fun r => r.id == "nope") = none →
      get_drawing [] "nope" = Except.error Err.notFound ∧
      update_drawing [] "nope" nameOnlyUpdate 9 = ([], Except.error Err.notFound) ∧
      delete_drawing [] "nope" = ([], Except.error Err.notFound)) ∧
    (([] : DB).find? (fun r => r.id == "nope") = none) ∧
    ((delete_drawing [sampleRow] "d1").2 = Except.ok "Drawing deleted successfully") ∧
    (get_drawing (delete_drawing [sampleRow] "d1").1 "d1" = Except.error Err.notFound ∧
      delete_drawing (delete_drawing [sampleRow] "d1").1 "d1" =
        ((delete_drawing [sampleRow] "d1").1, Except.error Err.notFound)) :=
  ⟨(missing_id_not_found [] "nope" nameOnlyUpdate 9).1, rfl, rfl,
    (missing_id_not_found [sampleRow] "d1" nameOnlyUpdate 9).2.1
      "Drawing deleted successfully" rfl⟩

/-- C5: under a monotone clock, every stored record keeps
`created_at ≤ updated_at` across Create, Update and Delete; Create sets
both timestamps equal; Update rewrites `updated_at` to the current time on
the touched row (never decreasing it) and leaves the `created_at` column
of every row unmodified. -/
theorem timestamps_invariant (db : DB) (c : DrawingCreate) (cid : String)
    (u : DrawingUpdate) (did : String) (now : Nat)
    (hinv : ∀ r ∈ db, r.created_at ≤ r.updated_at)
    (hclock : ∀ r ∈ db, r.updated_at ≤ now) :
    (∀ r ∈ (create_drawing db c cid now).1, r.created_at ≤ r.updated_at) ∧
    (∀ resp, (create_drawing db c cid now).2 = Except.ok resp →
      resp.created_at = now ∧ resp.updated_at = now) ∧
    (∀ r ∈ (update_drawing db did u now).1, r.created_at ≤ r.updated_at) ∧
    (∀ r ∈ (update_drawing db did u now).1, r ∈ db ∨ r.updated_at = now) ∧
    (update_drawing db did u now).1.map Row.created_at = db.map Row.created_at ∧
    (∀ r ∈ (delete_drawing db did).1, r.created_at ≤ r.updated_at) := by
  refine ⟨?_, ?_, ?_, ?_, ?_, ?_⟩
  · intro r hr
    by_cases hdup : ((db.find? fun s => s.id == cid).isSome) = true
    · simp only [create_drawing, hdup, if_true] at hr
      exact hinv r hr
    · simp only [create_drawing, hdup, if_false] at hr
      rcases List.mem_append.mp hr with hr | hr
      · exact hinv r hr
      · simp at hr
        subst hr
        exact le_refl now
  · intro resp hresp
    by_cases hdup : ((db.find? fun s => s.id == cid).isSome) = true
    · simp only [create_drawing, hdup, if_true] at hresp
      cases hresp
    · simp only [create_drawing, hdup, if_false] at hresp
      injection hresp with hresp
      subst hresp
      exact ⟨rfl, rfl⟩
  · intro r hr
    rcases update_drawing_fst db did u now with hfst | hfst
    · rw [hfst] at hr
      exact hinv r hr
    · rw [hfst] at hr
      rcases List.mem_map.mp hr with ⟨s, hs, hsr⟩
      by_cases hid : (s.id == did) = true
      · rw [if_pos hid] at hsr
        subst hsr
        rw [applyUpdate_created]
        exact le_trans (hinv s hs) (hclock s hs)
      · rw [if_neg hid] at hsr
        subst hsr
        exact hinv s hs
  · intro r hr
    rcases update_drawing_fst db did u now with hfst | hfst
    · rw [hfst] at hr
      exact Or.inl hr
    · rw [hfst] at hr
      rcases List.mem_map.mp hr with ⟨s, hs, hsr⟩
      by_cases hid : (s.id == did) = true
      · rw [if_pos hid] at hsr
        subst hsr
        exact Or.inr rfl
      · rw [if_neg hid] at hsr
        subst hsr
        exact Or.inl hs
  · rcases update_drawing_fst db did u now with hfst | hfst
    · rw [hfst]
    · rw [hfst]
      exact map_created_at_applyUpdate db did u now
  · intro r hr
    by_cases hlen : (db.filter fun s => !(s.id == did)).length = db.length
    · simp only [delete_drawing, hlen, if_true] at hr
      exact hinv r hr
    · simp only [delete_drawing, hlen, if_false] at hr
      exact hinv r (List.mem_filter.mp hr).1

/-- C5 witness: the sample one-row table with a later clock. -/
theorem timestamps_invariant_witness :
    (∀ r ∈ [sampleRow], r.created_at ≤ r.updated_at) ∧
    (∀ r ∈ [sampleRow], r.updated_at ≤ 9) ∧
    ((∀ r ∈ (create_drawing [sampleRow] sampleCreate "d2" 9).1,
        r.created_at ≤ r.updated_at) ∧
     (∀ resp, (create_drawing [sampleRow] sampleCreate "d2" 9).2 = Except.ok resp →
        resp.created_at = 9 ∧ resp.updated_at = 9) ∧
     (∀ r ∈ (update_drawing [sampleRow] "d1" nameOnlyUpdate 9).1,
        r.created_at ≤ r.updated_at) ∧
     (∀ r ∈ (update_drawing [sampleRow] "d1" nameOnlyUpdate 9).1,
        r ∈ [sampleRow] ∨ r.updated_at = 9) ∧
     (update_drawing [sampleRow] "d1" nameOnlyUpdate 9).1.map Row.created_at =
        [sampleRow].map Row.created_at ∧
     (∀ r ∈ (delete_drawing [sampleRow] "d1").1, r.created_at ≤ r.updated_at)) :=
  ⟨by decide, by decide,
    timestamps_invariant [sampleRow] sampleCreate "d2" nameOnlyUpdate "d1" 9
      (by decide) (by decide)⟩

/-- C6: on a table whose rows all parse, List succeeds and returns a
sequence sorted by `updated_at` descending that is a permutation of the
stored records' responses (all and only the currently-existing records);
on the empty store it returns the empty sequence, not an error. -/
theorem list_sorted_and_complete (db : DB) (hw : WfDB db) :
    (∃ l, get_drawings db = Except.ok l ∧
      l.Pairwise (fun a b => b.updated_at ≤ a.updated_at) ∧
      l.Perm (db.filterMap rowResponse)) ∧
    get_drawings [] = Except.ok [] := by
  constructor
  · have hw2 : ∀ r ∈ sortByUpdated db, WfRow r := fun r hr =>
      hw r ((sortByUpdated_perm db).mem_iff.mp hr)
    obtain ⟨l, hl, hfa⟩ := allResponses_eq_some _ hw2
    refine ⟨l, ?_, ?_, ?_⟩
    · simp [get_drawings, hl]
    · exact pairwise_of_forall₂ hfa (sortByUpdated_sorted db)
    · rw [allResponses_filterMap hl]
      exact (sortByUpdated_perm db).filterMap rowResponse
  · rfl

/-- C6 witness: a concrete two-row table (out of order) lists successfully. -/
theorem list_sorted_and_complete_witness :
    WfDB [sampleRow,
      { id := "d2", name := "new", preview_image := "q",
        canvas_state := json_dumps (JsonValue.bool true),
        created_at := 6, updated_at := 6 }] ∧
    ((∃ l, get_drawings [sampleRow,
        { id := "d2", name := "new", preview_image := "q",
          canvas_state := json_dumps (JsonValue.bool true),
          created_at := 6, updated_at := 6 }] = Except.ok l ∧
      l.Pairwise (fun a b => b.updated_at ≤ a.updated_at) ∧
      l.Perm ([sampleRow,
        { id := "d2", name := "new", preview_image := "q",
          canvas_state := json_dumps (JsonValue.bool true),
          created_at := 6, updated_at := 6 }].filterMap rowResponse)) ∧
     get_drawings [] = Except.ok []) := by
  have hw : WfDB [sampleRow,
      { id := "d2", name := "new", preview_image := "q",
        canvas_state := json_dumps (JsonValue.bool true),
        created_at := 6, updated_at := 6 }] := by
    intro r hr
    rcases List.mem_cons.mp hr with rfl | hr
    · exact ⟨JsonValue.null, json_loads_dumps JsonValue.null⟩
    · rcases List.mem_cons.mp hr with rfl | hr
      · exact ⟨JsonValue.bool true, json_loads_dumps (JsonValue.bool true)⟩
      · simp at hr
  exact ⟨hw, list_sorted_and_complete _ hw⟩

/-- C7 counterexample: Create performs no validation on `name`, so a
Create with the empty string succeeds and stores a record whose name is
empty — refuting the claim that every stored record has a non-empty name. -/
theorem create_accepts_empty_name :
    ∃ r ∈ (create_drawing [] emptyNameCreate "d1" 0).1, r.name = "" := by
  refine ⟨{ id := "d1", name := "", preview_image := "img9",
            canvas_state := json_dumps (JsonValue.obj JsonObj.nil),
            created_at := 0, updated_at := 0 }, ?_, rfl⟩
  simp [create_drawing, emptyNameCreate]

/-- C7 amended: every stored record's `name` is exactly the most recently
supplied client string — Create stores the request's `name` verbatim, and
an Update with `name` present stores the supplied value verbatim; the
column is always populated but non-emptiness is never enforced. -/
theorem stored_name_is_supplied (db : DB) (c : DrawingCreate) (cid : String)
    (now : Nat) (u : DrawingUpdate) (did : String) (r : Row) (n : String)
    (j0 : JsonValue)
    (hfresh : db.find? (fun s => s.id == cid) = none)
    (hfind : db.find? (fun s => s.id == did) = some r)
    (hwf : json_loads r.canvas_state = some j0)
    (hname : u.name = some n) :
    (∃ row ∈ (create_drawing db c cid now).1, row.id = cid ∧ row.name = c.name) ∧
    ((update_drawing db did u now).1.find? (fun s => s.id == did) =
      some (applyUpdate r u now)) ∧
    (applyUpdate r u now).name = n := by
  have hpres : hasField u = true := by simp [hasField, hname]
  have hspec := update_drawing_spec db did u now r j0 hfind hpres hwf
  refine ⟨?_, ?_, ?_⟩
  · refine ⟨{ id := cid, name := c.name, preview_image := c.preview_image,
              canvas_state := json_dumps c.canvas_state,
              created_at := now, updated_at := now }, ?_, rfl, rfl⟩
    simp [create_drawing, hfresh]
  · rw [hspec]
    exact find?_map_applyUpdate db did u now r hfind
  · simp [applyUpdate, hname]

/-- C7 amended witness: concrete create and name-only update store the
supplied strings verbatim. -/
theorem stored_name_is_supplied_witness :
    ([sampleRow].find? (fun s => s.id == "d2") = none) ∧
    ([sampleRow].find? (fun s => s.id == "d1") = some sampleRow) ∧
    json_loads sampleRow.canvas_state = some JsonValue.null ∧
    nameOnlyUpdate.name = some "X" ∧
    ((∃ row ∈ (create_drawing [sampleRow] sampleCreate "d2" 9).1,
        row.id = "d2" ∧ row.name = sampleCreate.name) ∧
     ((update_drawing [sampleRow] "d1" nameOnlyUpdate 9).1.find?
        (fun s => s.id == "d1") = some (applyUpdate sampleRow nameOnlyUpdate 9)) ∧
     (applyUpdate sampleRow nameOnlyUpdate 9).name = "X") :=
  ⟨rfl, rfl, json_loads_dumps JsonValue.null, rfl,
    stored_name_is_supplied [sampleRow] sampleCreate "d2" 9 nameOnlyUpdate "d1"
      sampleRow "X" JsonValue.null rfl rfl (json_loads_dumps JsonValue.null) rfl⟩

/-- C9: an Update request whose three fields are all absent — exactly what
pydantic decodes from a body of three explicit JSON `null`s, making the
two bodies indistinguishable — is treated as zero fields present: it fails
with `InvalidRequest` (HTTP 400) and the table is unchanged, so no field
can be cleared via `null`. -/
theorem explicit_nulls_update_rejected (db : DB) (did : String) (now : Nat) (r : Row)
    (u : DrawingUpdate)
    (hfind : db.find? (fun s => s.id == did) = some r)
    (hn : u.name = none) (hp : u.preview_image = none) (hc : u.canvas_state = none) :
    u = emptyUpdate ∧
    update_drawing db did u now = (db, Except.error Err.invalidRequest) ∧
    Err.invalidRequest.httpStatus = 400 := by
  have hu : u = emptyUpdate := by
    cases u
    simp_all [emptyUpdate]
  have hf : hasField u = false := by simp [hasField, hn, hp, hc]
  exact ⟨hu, by simp [update_drawing, hfind, hf], rfl⟩

/-- C9 witness: the all-null update on the sample row is rejected with 400
and commits nothing. -/
theorem explicit_nulls_update_rejected_witness :
    ([sampleRow].find? (fun s => s.id == "d1") = some sampleRow) ∧
    emptyUpdate.name = none ∧ emptyUpdate.preview_image = none ∧
    emptyUpdate.canvas_state = none ∧
    (emptyUpdate = emptyUpdate ∧
     update_drawing [sampleRow] "d1" emptyUpdate 9 =
       ([sampleRow], Except.error Err.invalidRequest) ∧
     Err.invalidRequest.httpStatus = 400) :=
  ⟨rfl, rfl, rfl, rfl,
    explicit_nulls_update_rejected [sampleRow] "d1" 9 sampleRow emptyUpdate
      rfl rfl rfl rfl⟩

/-- C10: on a table whose every row was written through this API (its
`canvas_state` column parses), the well-formedness is preserved by Create,
Update and Delete, and every `json.loads` the handlers perform — in Get,
List, and the Update re-read — succeeds, so the parse-failure 500 branch
is unreachable for API-written records. -/
theorem canvas_parse_never_fails (db : DB) (c : DrawingCreate) (cid did : String)
    (u : DrawingUpdate) (now : Nat) (hw : WfDB db) :
    WfDB (create_drawing db c cid now).1 ∧
    WfDB (update_drawing db did u now).1 ∧
    WfDB (delete_drawing db did).1 ∧
    (∀ r, db.find? (fun s => s.id == did) = some r →
      ∃ resp, get_drawing db did = Except.ok resp) ∧
    (∃ l, get_drawings db = Except.ok l) ∧
    (∀ r, db.find? (fun s => s.id == did) = some r → hasField u = true →
      ∃ resp, (update_drawing db did u now).2 = Except.ok resp) := by
  refine ⟨?_, ?_, ?_, ?_, ?_, ?_⟩
  · intro r hr
    by_cases hdup : ((db.find? fun s => s.id == cid).isSome) = true
    · simp only [create_drawing, hdup, if_true] at hr
      exact hw r hr
    · simp only [create_drawing, hdup, if_false] at hr
      rcases List.mem_append.mp hr with hr | hr
      · exact hw r hr
      · simp at hr
        subst hr
        exact ⟨c.canvas_state, json_loads_dumps c.canvas_state⟩
  · intro r hr
    rcases update_drawing_fst db did u now with hfst | hfst
    · rw [hfst] at hr
      exact hw r hr
    · rw [hfst] at hr
      rcases List.mem_map.mp hr with ⟨s, hs, hsr⟩
      by_cases hid : (s.id == did) = true
      · rw [if_pos hid] at hsr
        subst hsr
        cases hcs : u.canvas_state with
        | none =>
          obtain ⟨j, hj⟩ := hw s hs
          exact ⟨j, by simpa [applyUpdate, hcs] using hj⟩
        | some cj =>
          exact ⟨cj, by simp [applyUpdate, hcs, json_loads_dumps]⟩
      · rw [if_neg hid] at hsr
        subst hsr
        exact hw s hs
  · intro r hr
    by_cases hlen : (db.filter fun s => !(s.id == did)).length = db.length
    · simp only [delete_drawing, hlen, if_true] at hr
      exact hw r hr
    · simp only [delete_drawing, hlen, if_false] at hr
      exact hw r (List.mem_filter.mp hr).1
  · intro r hfind
    obtain ⟨j, hj⟩ := hw r (List.mem_of_find?_eq_some hfind)
    refine ⟨{ id := r.id, name := r.name, preview_image := r.preview_image,
              canvas_state := j, created_at := r.created_at,
              updated_at := r.updated_at }, ?_⟩
    simp [get_drawing, hfind, rowResponse, hj]
  · have hw2 : ∀ r ∈ sortByUpdated db, WfRow r := fun r hr =>
      hw r ((sortByUpdated_perm db).mem_iff.mp hr)
    obtain ⟨l, hl, _⟩ := allResponses_eq_some _ hw2
    exact ⟨l, by simp [get_drawings, hl]⟩
  · intro r hfind hpres
    obtain ⟨j, hj⟩ := hw r (List.mem_of_find?_eq_some hfind)
    refine ⟨{ id := r.id, name := u.name.getD r.name,
              preview_image := u.preview_image.getD r.preview_image,
              canvas_state := u.canvas_state.getD j,
              created_at := r.created_at, updated_at := now }, ?_⟩
    rw [update_drawing_spec db did u now r j hfind hpres hj]

/-- C10 witness: the sample one-row table. -/
theorem canvas_parse_never_fails_witness :
    WfDB [sampleRow] ∧
    (WfDB (create_drawing [sampleRow] sampleCreate "d2" 9).1 ∧
     WfDB (update_drawing [sampleRow] "d1" nameOnlyUpdate 9).1 ∧
     WfDB (delete_drawing [sampleRow] "d1").1 ∧
     (∀ r, [sampleRow].find? (fun s => s.id == "d1") = some r →
       ∃ resp, get_drawing [sampleRow] "d1" = Except.ok resp) ∧
     (∃ l, get_drawings [sampleRow] = Except.ok l) ∧
     (∀ r, [sampleRow].find? (fun s => s.id == "d1") = some r →
       hasField nameOnlyUpdate = true →
       ∃ resp, (update_drawing [sampleRow] "d1" nameOnlyUpdate 9).2 =
         Except.ok resp)) := by
  have hw : WfDB [sampleRow] := by
    intro r hr
    rcases List.mem_cons.mp hr with rfl | hr
    · exact ⟨JsonValue.null, json_loads_dumps JsonValue.null⟩
    · simp at hr
  exact ⟨hw, canvas_parse_never_fails [sampleRow] sampleCreate "d2" "d1"
    nameOnlyUpdate 9 hw⟩

lemma hexValChar_hexChar (n : Nat) (h : n < 16) : hexValChar (hexChar n) = n := by
  interval_cases n <;> decide

lemma hexChar_ne_dash (n : Nat) : hexChar n ≠ '-' := by
  unfold hexChar
  split <;> decide

lemma natToHex_length (w : Nat) : ∀ n, (natToHex w n).length = w := by
  induction w with
  | zero => intro n; rfl
  | succ w ih => intro n; simp [natToHex, ih]

lemma natToHex_ne_dash (w : Nat) : ∀ n, ∀ c ∈ natToHex w n, c ≠ '-' := by
  induction w with
  | zero =>
    intro n c hc
    simp [natToHex] at hc
  | succ w ih =>
    intro n c hc
    simp only [natToHex, List.mem_append, List.mem_singleton] at hc
    rcases hc with hc | hc
    · exact ih _ c hc
    · subst hc
      exact hexChar_ne_dash _

lemma natToHex_foldl (w : Nat) : ∀ n acc, n < 16 ^ w →
    (natToHex w n).foldl (fun a c => a * 16 + hexValChar c) acc = acc * 16 ^ w + n := by
  induction w with
  | zero =>
    intro n acc h
    have hn : n = 0 := by
      have : (16 : Nat) ^ 0 = 1 := rfl
      omega
    subst hn
    simp [natToHex]
  | succ w ih =>
    intro n acc h
    have h16 : n / 16 < 16 ^ w := by
      rw [Nat.div_lt_iff_lt_mul (by omega : 0 < 16)]
      calc n < 16 ^ (w + 1) := h
        _ = 16 ^ w * 16 := pow_succ 16 w
    have hm : n % 16 < 16 := Nat.mod_lt n (by omega)
    simp only [natToHex, List.foldl_append, List.foldl]
    rw [ih (n / 16) acc h16, hexValChar_hexChar (n % 16) hm]
    calc (acc * 16 ^ w + n / 16) * 16 + n % 16
        = acc * (16 ^ w * 16) + (16 * (n / 16) + n % 16) := by ring
      _ = acc * 16 ^ (w + 1) + n := by rw [Nat.div_add_mod, ← pow_succ]

lemma natToHex_inj {w n m : Nat} (hn : n < 16 ^ w) (hm : m < 16 ^ w)
    (h : natToHex w n = natToHex w m) : n = m := by
  have h1 := natToHex_foldl w n 0 hn
  have h2 := natToHex_foldl w m 0 hm
  rw [h] at h1
  omega

lemma uuid_pieces (h : List Char) :
    h.take 8 ++ ((h.drop 8).take 4 ++ ((h.drop 12).take 4 ++
      ((h.drop 16).take 4 ++ h.drop 20))) = h := by
  have e12 : h.take 12 = h.take 8 ++ (h.drop 8).take 4 := List.take_add h 8 4
  have e16 : h.take 16 = h.take 12 ++ (h.drop 12).take 4 := List.take_add h 12 4
  have e20 : h.take 20 = h.take 16 ++ (h.drop 16).take 4 := List.take_add h 16 4
  have efin : h.take 20 ++ h.drop 20 = h := List.take_append_drop 20 h
  conv_rhs => rw [← efin, e20, e16, e12]
  simp [List.append_assoc]

lemma filter_dash_uuid (h : List Char) (hnd : ∀ c ∈ h, c ≠ '-') :
    List.filter (fun c => !(c == '-'))
      (h.take 8 ++ '-' :: ((h.drop 8).take 4 ++ '-' ::
        ((h.drop 12).take 4 ++ '-' :: ((h.drop 16).take 4 ++ '-' :: h.drop 20)))) = h := by
  have hself : ∀ l : List Char, l ⊆ h → List.filter (fun c => !(c == '-')) l = l := by
    intro l hl
    rw [List.filter_eq_self]
    intro a ha
    simp [hnd a (hl ha)]
  have hdash : ((fun c => !(c == '-')) '-') = false := rfl
  simp only [List.filter_append, List.filter_cons, hdash, Bool.false_eq_true, if_false]
  rw [hself _ (List.take_subset _ _),
    hself _ ((List.take_subset _ _).trans (List.drop_subset _ _)),
    hself _ ((List.take_subset _ _).trans (List.drop_subset _ _)),
    hself _ ((List.take_subset _ _).trans (List.drop_subset _ _)),
    hself _ (List.drop_subset _ _)]
  exact uuid_pieces h

lemma uuid4str_length (n : Nat) : (uuid4str n).data.length = 36 := by
  unfold uuid4str
  simp only [data_mk, List.length_append, List.length_cons, List.length_take,
    List.length_drop, natToHex_length]
  omega

lemma uuid4str_ne_empty (n : Nat) : uuid4str n ≠ "" := by
  intro h
  have h1 := uuid4str_length n
  rw [h] at h1
  simp at h1

lemma uuid4str_inj {n m : Nat} (hn : n < 2 ^ 128) (hm : m < 2 ^ 128)
    (h : uuid4str n = uuid4str m) : n = m := by
  have hd := congrArg String.data h
  unfold uuid4str at hd
  simp only [data_mk] at hd
  have hfil := congrArg (List.filter fun c => !(c == '-')) hd
  rw [filter_dash_uuid _ (natToHex_ne_dash 32 (n % 2 ^ 128)),
    filter_dash_uuid _ (natToHex_ne_dash 32 (m % 2 ^ 128))] at hfil
  have hnn : n % 2 ^ 128 = n := Nat.mod_eq_of_lt hn
  have hmm : m % 2 ^ 128 = m := Nat.mod_eq_of_lt hm
  rw [hnn, hmm] at hfil
  have h32 : (16 : Nat) ^ 32 = 2 ^ 128 := by norm_num
  exact natToHex_inj (h32 ▸ hn) (h32 ▸ hm) hfil

/-- C8: the id Create returns is the service-generated
`str(uuid.uuid4())` — a non-empty (36-character) string, independent of
every client-supplied field, and distinct across two calls whenever the
two 128-bit UUID values differ, even for identical Create inputs. -/
theorem create_id_generated_distinct (db : DB) (c : DrawingCreate) (now : Nat)
    (n m : Nat) (hn : n < 2 ^ 128) (hm : m < 2 ^ 128) (hnm : n ≠ m) :
    uuid4str n ≠ "" ∧
    uuid4str n ≠ uuid4str m ∧
    (∀ resp, (create_drawing db c (uuid4str n) now).2 = Except.ok resp →
      resp.id = uuid4str n) := by
  refine ⟨uuid4str_ne_empty n, fun he => hnm (uuid4str_inj hn hm he), ?_⟩
  intro resp hresp
  by_cases hdup : ((db.find? fun s => s.id == uuid4str n).isSome) = true
  · simp only [create_drawing, hdup, if_true] at hresp
    cases hresp
  · simp only [create_drawing, hdup, if_false] at hresp
    injection hresp with hresp
    subst hresp
    rfl

/-- C8 witness: two concrete distinct draws give non-empty distinct ids,
and Create echoes the generated id. -/
theorem create_id_generated_distinct_witness :
    (0 : Nat) < 2 ^ 128 ∧ (1 : Nat) < 2 ^ 128 ∧ (0 : Nat) ≠ 1 ∧
    (uuid4str 0 ≠ "" ∧
     uuid4str 0 ≠ uuid4str 1 ∧
     (∀ resp, (create_drawing [] sampleCreate (uuid4str 0) 7).2 = Except.ok resp →
       resp.id = uuid4str 0)) :=
  ⟨by norm_num, by norm_num, by decide,
    create_id_generated_distinct [] sampleCreate 7 0 1 (by norm_num) (by norm_num)
      (by decide)⟩
